import Mathlib

/-!
A verification development for `rss_to_mastodon.py`, a script that polls RSS
feeds and republishes new entries to Mastodon accounts.

Python strings are modelled as `List Char` (Python `len` counts code points,
as does `List.length` over `Char`).  Machine-level 32-bit words in the hash
are modelled as `Nat` reduced modulo `2 ^ 32`.  The per-feed posting loop is
modelled as a state-passing fold; the external Mastodon collaborator is
modelled by a per-entry oracle (`EntryOutcome`) recording the rate-limit
signal observed before posting and whether the publish call succeeds.
-/

/-! ## Python string primitives used by the script -/

/-- ASCII whitespace recognised by Python `str.strip()` (the script's inputs
in this development are ASCII; the full Unicode whitespace class is a
superset that strips at least these). -/
def pyIsSpace (c : Char) : Bool :=
  c == ' ' || c == '\t' || c == '\n' || c == '\r' || c == '\x0b' || c == '\x0c'

/-- Python `s.strip()`: remove leading and trailing whitespace. -/
def pyStrip (s : List Char) : List Char :=
  ((s.dropWhile pyIsSpace).reverse.dropWhile pyIsSpace).reverse

/-- Python `s[:stop]` for an `int` bound: a nonnegative bound keeps the first
`stop` characters (clamped); a negative bound drops the last `-stop`
characters (clamped at the empty string). -/
def pySlice (s : List Char) (stop : Int) : List Char :=
  if 0 ≤ stop then s.take stop.toNat else s.take (s.length - (-stop).toNat)

/-- Python `s.rsplit(" ", 1)[0]`: everything strictly before the last space,
or the whole string when it contains no space. -/
def rsplitLast : List Char → List Char
  | [] => []
  | c :: rest =>
    if ' ' ∈ rest then c :: rsplitLast rest
    else if c = ' ' then [] else c :: rsplitLast rest

/-- Scanning helper for the regex `<.*?>` (Python `re`, where `.` does not
match a newline): given the characters after a `<`, return the characters
after the first `>` unless a newline intervenes. -/
def tagEnd : List Char → Option (List Char)
  | [] => none
  | c :: rest =>
    if c = '>' then some rest
    else if c = '\n' then none
    else tagEnd rest

/-- Fuel-indexed body of `strip_html`; the fuel only needs to dominate the
input length, and each step consumes at least one character. -/
def stripHtmlFuel : Nat → List Char → List Char
  | 0, s => s
  | _ + 1, [] => []
  | fuel + 1, c :: rest =>
    if c = '<' then
      match tagEnd rest with
      | some rest2 => stripHtmlFuel fuel rest2
      | none => c :: stripHtmlFuel fuel rest
    else c :: stripHtmlFuel fuel rest

/-- `strip_html` from the script: `re.sub('<.*?>', '', html)` — repeatedly
delete the shortest `<...>` span containing no newline, scanning left to
right. -/
def strip_html (s : List Char) : List Char :=
  stripHtmlFuel s.length s

/-! ## SHA-256 (the `hashlib.sha256(...).hexdigest()` collaborator)

A faithful executable SHA-256 over byte lists, words as `Nat` modulo
`2 ^ 32`. -/

/-- Reduce to a 32-bit word. -/
def u32 (n : Nat) : Nat := n % 4294967296

/-- Rotate a 32-bit word right by `n`. -/
def rotr (n x : Nat) : Nat := u32 ((x >>> n) ||| (x <<< (32 - n)))

/-- The 64 SHA-256 round constants. -/
def shaK : List Nat :=
  [1116352408, 1899447441, 3049323471, 3921009573, 961987163,
   1508970993, 2453635748, 2870763221, 3624381080, 310598401,
   607225278, 1426881987, 1925078388, 2162078206, 2614888103,
   3248222580, 3835390401, 4022224774, 264347078, 604807628,
   770255983, 1249150122, 1555081692, 1996064986, 2554220882,
   2821834349, 2952996808, 3210313671, 3336571891, 3584528711,
   113926993, 338241895, 666307205, 773529912, 1294757372,
   1396182291, 1695183700, 1986661051, 2177026350, 2456956037,
   2730485921, 2820302411, 3259730800, 3345764771, 3516065817,
   3600352804, 4094571909, 275423344, 430227734, 506948616,
   659060556, 883997877, 958139571, 1322822218, 1537002063,
   1747873779, 1955562222, 2024104815, 2227730452, 2361852424,
   2428436474, 2756734187, 3204031479, 3329325298]

/-- The initial SHA-256 hash state. -/
def shaH0 : List Nat :=
  [1779033703, 3144134277, 1013904242, 2773480762,
   1359893119, 2600822924, 528734635, 1541459225]

/-- UTF-8 encoding of one code point (Python `str.encode('utf-8')`). -/
def utf8Encode (c : Char) : List Nat :=
  let n := c.toNat
  if n < 0x80 then [n]
  else if n < 0x800 then
    [0xC0 ||| (n >>> 6), 0x80 ||| (n &&& 0x3F)]
  else if n < 0x10000 then
    [0xE0 ||| (n >>> 12), 0x80 ||| ((n >>> 6) &&& 0x3F), 0x80 ||| (n &&& 0x3F)]
  else
    [0xF0 ||| (n >>> 18), 0x80 ||| ((n >>> 12) &&& 0x3F),
     0x80 ||| ((n >>> 6) &&& 0x3F), 0x80 ||| (n &&& 0x3F)]

/-- UTF-8 bytes of a string. -/
def strBytes (s : String) : List Nat :=
  (s.data.map utf8Encode).flatten

/-- Big-endian 8-byte encoding of the bit length. -/
def lenBytes (n : Nat) : List Nat :=
  (List.range 8).map (fun i => (n >>> (8 * (7 - i))) % 256)

/-- SHA-256 message padding: `0x80`, zeros to 56 mod 64, 8 length bytes. -/
def padMessage (msg : List Nat) : List Nat :=
  let L := msg.length
  msg ++ [0x80] ++ List.replicate ((55 + 64 - (L % 64)) % 64) 0 ++ lenBytes (8 * L)

/-- Fuel-indexed 64-byte chunking (fuel dominates the length). -/
def chunks64Fuel : Nat → List Nat → List (List Nat)
  | 0, _ => []
  | _ + 1, [] => []
  | fuel + 1, b :: rest => (b :: rest).take 64 :: chunks64Fuel fuel ((b :: rest).drop 64)

/-- Split a byte list into 64-byte blocks. -/
def chunks64 (l : List Nat) : List (List Nat) :=
  chunks64Fuel l.length l

/-- First 16 message-schedule words of a block (big-endian 4-byte words). -/
def toWords (block : List Nat) : List Nat :=
  (List.range 16).map (fun i =>
    ((block.getD (4 * i) 0) <<< 24) ||| ((block.getD (4 * i + 1) 0) <<< 16) |||
    ((block.getD (4 * i + 2) 0) <<< 8) ||| (block.getD (4 * i + 3) 0))

/-- σ₀ of the message schedule. -/
def smallSigma0 (x : Nat) : Nat := (rotr 7 x) ^^^ (rotr 18 x) ^^^ (x >>> 3)

/-- σ₁ of the message schedule. -/
def smallSigma1 (x : Nat) : Nat := (rotr 17 x) ^^^ (rotr 19 x) ^^^ (x >>> 10)

/-- Append one extended message-schedule word. -/
def extendStep (w : List Nat) : List Nat :=
  let n := w.length
  w ++ [u32 (smallSigma1 (w.getD (n - 2) 0) + w.getD (n - 7) 0 +
             smallSigma0 (w.getD (n - 15) 0) + w.getD (n - 16) 0)]

/-- The 64-word message schedule of a block. -/
def schedule (block : List Nat) : List Nat :=
  (List.range 48).foldl (fun w _ => extendStep w) (toWords block)

/-- One SHA-256 compression round on the state `[a,b,c,d,e,f,g,h]`, where
`kw` is the sum of the round constant and the schedule word. -/
def compressRound (st : List Nat) (kw : Nat) : List Nat :=
  match st with
  | [a, b, c, d, e, f, g, h] =>
    let S1 := (rotr 6 e) ^^^ (rotr 11 e) ^^^ (rotr 25 e)
    let ch := (e &&& f) ^^^ ((e ^^^ 0xFFFFFFFF) &&& g)
    let temp1 := u32 (h + S1 + ch + kw)
    let S0 := (rotr 2 a) ^^^ (rotr 13 a) ^^^ (rotr 22 a)
    let maj := (a &&& b) ^^^ (a &&& c) ^^^ (b &&& c)
    let temp2 := u32 (S0 + maj)
    [u32 (temp1 + temp2), a, b, c, u32 (d + temp1), e, f, g]
  | other => other

/-- Compress one 64-byte block into the running hash state. -/
def compressBlock (H : List Nat) (block : List Nat) : List Nat :=
  let kws := (shaK.zip (schedule block)).map (fun p => u32 (p.1 + p.2))
  let st := kws.foldl compressRound H
  (H.zip st).map (fun p => u32 (p.1 + p.2))

/-- One lowercase hexadecimal digit. -/
def hexDigit (n : Nat) : Char :=
  if n < 10 then Char.ofNat (48 + n) else Char.ofNat (87 + n)

/-- Fixed-width 8-hex-digit rendering of a 32-bit word. -/
def wordHex (w : Nat) : List Char :=
  (List.range 8).map (fun i => hexDigit ((w >>> (4 * (7 - i))) % 16))

/-- `hashlib.sha256(s.encode('utf-8')).hexdigest()`. -/
def sha256hex (s : String) : String :=
  let H := (chunks64 (padMessage (strBytes s))).foldl compressBlock shaH0
  String.mk (H.map wordHex).flatten

/-! ## Feed entries and the identifier derivation (`get_entry_id`) -/

/-- A parsed feed entry as the script reads it.  `entry.get(k)` on an absent
key is `none`; `entry.get("title", "")`-style access with default is
modelled by a total `title` field (an absent title reads as `""`). -/
structure Entry where
  id : Option String
  guid : Option String
  link : Option String
  title : String
  summary : Option String
  description : Option String

/-- Python `a or b` where `a` is an optional string: `a` when it is present
and non-empty (truthy), else `b`. -/
def pyOr (a : Option String) (b : String) : String :=
  match a with
  | some s => if s.isEmpty then b else s
  | none => b

/-- The value the script hashes:
`entry.get("id") or entry.get("guid") or entry.get("link") or (entry.title + entry.link)`. -/
def rawCandidate (e : Entry) : String :=
  pyOr e.id (pyOr e.guid (pyOr e.link (e.title ++ e.link.getD "")))

/-- `get_entry_id` from the script: the SHA-256 hex digest of the first
truthy candidate. -/
def get_entry_id (e : Entry) : String :=
  sha256hex (rawCandidate e)

/-- Every candidate field of the entry is empty (the spec's condition for
the identifier derivation to fail). -/
def allCandidatesEmpty (e : Entry) : Bool :=
  (e.id.getD "").isEmpty && (e.guid.getD "").isEmpty && (e.link.getD "").isEmpty
    && (e.title ++ e.link.getD "").isEmpty

/-- Spec-side selection: the first non-empty/non-null candidate, left to
right, else the final fallback.  Stated from the spec's words to compare
with `rawCandidate`. -/
def firstNonEmpty : List (Option String) → String → String
  | [], d => d
  | none :: rest, d => firstNonEmpty rest d
  | some s :: rest, d => if s.isEmpty then firstNonEmpty rest d else s

/-! ## The formatting step (lines 82–103 of the script) -/

/-- The fixed per-post character budget. -/
def MAX_CHARS : Nat := 500

/-- `title = strip_html(entry.get("title", "").strip())`. -/
def entryTitle (e : Entry) : List Char :=
  strip_html (pyStrip e.title.data)

/-- `summary = entry.get("summary") or entry.get("description")` — the raw
selected value before cleaning (may be absent or empty). -/
def summarySel (e : Entry) : Option String :=
  match e.summary with
  | some s => if s.isEmpty then e.description else some s
  | none => e.description

/-- `summary = strip_html(summary.strip()) if summary else ""`. -/
def entrySummary (e : Entry) : List Char :=
  match summarySel e with
  | some s => if s.isEmpty then [] else strip_html (pyStrip s.data)
  | none => []

/-- `link = entry.get("link", "").strip()`. -/
def entryLink (e : Entry) : List Char :=
  pyStrip ((e.link.getD "").data)

/-- `static_part = f"{title}\n\n"`. -/
def static_part (e : Entry) : List Char :=
  entryTitle e ++ ['\n', '\n']

/-- `link_part = f"\n{link}"`. -/
def link_part (e : Entry) : List Char :=
  '\n' :: entryLink e

/-- `available_chars = MAX_CHARS - len(static_part) - len(link_part)` —
a Python `int`, which may be negative. -/
def available_chars (e : Entry) : Int :=
  (MAX_CHARS : Int) - (static_part e).length - (link_part e).length

/-- The summary actually interpolated into the text:
`summary[:available_chars].rsplit(" ", 1)[0] + "…"` when the summary
exceeds the budget, the summary unchanged otherwise. -/
def truncatedSummary (e : Entry) : List Char :=
  if ((entrySummary e).length : Int) > available_chars e then
    rsplitLast (pySlice (entrySummary e) (available_chars e)) ++ ['…']
  else entrySummary e

/-- `status = text.strip()` where `text` is
`f"{static_part}{summary}{link_part}"` when a summary is present and
`f"{title}{link_part}"` otherwise. -/
def formatStatus (e : Entry) : List Char :=
  pyStrip (if entrySummary e ≠ [] then
             static_part e ++ truncatedSummary e ++ link_part e
           else entryTitle e ++ link_part e)

/-! ## The per-feed posting loop (lines 37–147 of the script) -/

/-- Oracle for the external Mastodon collaborator while one entry is
processed: the `mastodon.ratelimit_remaining` value read before posting
(`none` models Python `None`), and whether `status_post` succeeds. -/
structure EntryOutcome where
  rateRemaining : Option Int
  publishOk : Bool

/-- State of one feed's run: the in-memory `posted_ids` set (a list with
set membership), the persisted id-store file (`none` when the file is
absent), and the trace of identifiers for which `status_post` was
invoked. -/
structure FeedState where
  posted_ids : List String
  id_store : Option (List String)
  attempts : List String

/-- `remaining is not None and remaining < 5`. -/
def rateBlocked (o : EntryOutcome) : Bool :=
  match o.rateRemaining with
  | some r => decide (r < 5)
  | none => false

/-- `posted_ids.add(entry_id)` — set insertion on the list model. -/
def insertId (x : String) (l : List String) : List String :=
  if x ∈ l then l else l ++ [x]

/-- One iteration of the entry loop: skip when the identifier is falsy or
already posted; skip (`continue`) when the rate limit is near exhaustion;
otherwise call `status_post` and, on success, add the identifier to the
in-memory set and rewrite the id-store file with the full set before the
next entry.  A failed post changes no state. -/
def processEntry (st : FeedState) (e : Entry) (o : EntryOutcome) : FeedState :=
  if get_entry_id e = "" ∨ get_entry_id e ∈ st.posted_ids then st
  else if rateBlocked o then st
  else if o.publishOk then
    { posted_ids := insertId (get_entry_id e) st.posted_ids,
      id_store := some (insertId (get_entry_id e) st.posted_ids),
      attempts := st.attempts ++ [get_entry_id e] }
  else { st with attempts := st.attempts ++ [get_entry_id e] }

/-- The entry loop over a list of entries paired with their oracle
outcomes. -/
def runEntries (st : FeedState) : List (Entry × EntryOutcome) → FeedState
  | [] => st
  | (e, o) :: rest => runEntries (processEntry st e o) rest

/-- Loading the per-feed id store: `first_run` iff the file is absent, in
which case the in-memory set starts empty. -/
def loadState (store : Option (List String)) : FeedState :=
  { posted_ids := store.getD [], id_store := store, attempts := [] }

/-- The first-run restriction: on a first run only `entries[0]` is
considered (`entries = [entries[0]]`); otherwise all fetched entries are. -/
def candidates (store : Option (List String)) (entries : List Entry) : List Entry :=
  if store.isNone then entries.take 1 else entries

/-- One feed's run, from the persisted store and the fetched entry list. -/
def runFeed (store : Option (List String)) (entries : List Entry)
    (outs : List EntryOutcome) : FeedState :=
  runEntries (loadState store) ((candidates store entries).zip outs)

/-- The entry reaches `status_post` in state `st` and the call succeeds. -/
def publishes (st : FeedState) (e : Entry) (o : EntryOutcome) : Prop :=
  ¬(get_entry_id e = "" ∨ get_entry_id e ∈ st.posted_ids)
    ∧ rateBlocked o = false ∧ o.publishOk = true

/-- Everything in the persisted file is also in the in-memory set.  Holds
when a store is loaded and is preserved by the loop. -/
def StoreInv (st : FeedState) : Prop :=
  ∀ x ∈ st.id_store.getD [], x ∈ st.posted_ids

/-! ## The id-store file write (lines 142–143)

`with open(id_store_path, "w") as f: json.dump(list(posted_ids), f)`.
The serialized form is modelled after `json.dump` on a list of strings of
hex digits (no characters needing escapes).  Opening with mode `"w"`
truncates the file in place and the serialized bytes are then appended, so
the on-disk contents observable if the process crashes mid-write are
exactly the prefixes of the new contents (including the empty file). -/

/-- JSON rendering of one digest string (hex digits need no escaping). -/
def jsonStr (s : String) : List Char :=
  '"' :: s.data ++ ['"']

/-- `json.dump` of a list of digest strings (default `", "` separator). -/
def jsonDumpList (l : List String) : List Char :=
  '[' :: (List.intercalate [',', ' '] (l.map jsonStr)) ++ [']']

/-- The on-disk states observable at crash points during an in-place
(truncate-then-append) rewrite with the given new contents. -/
def inPlaceWriteStates (c : List Char) : List (List Char) :=
  (List.range (c.length + 1)).map (fun k => c.take k)

/-- Crash-observable contents of the id-store file while `record` rewrites
it with the serialized full updated set. -/
def recordCrashStates (newSet : List String) : List (List Char) :=
  inPlaceWriteStates (jsonDumpList newSet)

/-! ## Helper lemmas -/

theorem dropWhile_length_le (p : Char → Bool) (l : List Char) :
    (l.dropWhile p).length ≤ l.length := by
  induction l with
  | nil => simp
  | cons c rest ih =>
    by_cases h : p c
    · simp only [List.dropWhile_cons, h, if_true]
      exact Nat.le_succ_of_le ih
    · simp [List.dropWhile_cons, h]

theorem pyStrip_length_le (s : List Char) : (pyStrip s).length ≤ s.length := by
  unfold pyStrip
  calc (((s.dropWhile pyIsSpace).reverse.dropWhile pyIsSpace).reverse).length
      = ((s.dropWhile pyIsSpace).reverse.dropWhile pyIsSpace).length := by
        rw [List.length_reverse]
    _ ≤ (s.dropWhile pyIsSpace).reverse.length := dropWhile_length_le _ _
    _ = (s.dropWhile pyIsSpace).length := by rw [List.length_reverse]
    _ ≤ s.length := dropWhile_length_le _ _

theorem rsplitLast_length_le (s : List Char) : (rsplitLast s).length ≤ s.length := by
  induction s with
  | nil => simp [rsplitLast]
  | cons c rest ih =>
    unfold rsplitLast
    split
    · simpa using ih
    · split
      · simp
      · simpa using ih

theorem rsplitLast_of_not_mem (s : List Char) (h : ' ' ∉ s) : rsplitLast s = s := by
  induction s with
  | nil => rfl
  | cons c rest ih =>
    unfold rsplitLast
    rw [if_neg (fun hm => h (List.mem_cons_of_mem _ hm)),
        if_neg (fun hc : c = ' ' => h (by rw [← hc]; exact List.mem_cons_self c rest))]
    rw [ih (fun hm => h (List.mem_cons_of_mem _ hm))]

theorem rsplitLast_boundary (s : List Char) (h : ' ' ∈ s) :
    ∃ suf, s = rsplitLast s ++ ' ' :: suf ∧ ' ' ∉ suf := by
  induction s with
  | nil => cases h
  | cons c rest ih =>
    by_cases hr : ' ' ∈ rest
    · obtain ⟨suf, hs, hn⟩ := ih hr
      refine ⟨suf, ?_, hn⟩
      unfold rsplitLast
      rw [if_pos hr]
      simpa using hs
    · have hc : c = ' ' := by
        rcases List.mem_cons.mp h with h1 | h2
        · exact h1.symm
        · exact absurd h2 hr
      refine ⟨rest, ?_, hr⟩
      unfold rsplitLast
      rw [if_neg hr, if_pos hc, hc]
      rfl

theorem pySlice_length_le (s : List Char) (k : Int) (h : 0 ≤ k) :
    (pySlice s k).length ≤ k.toNat := by
  unfold pySlice
  rw [if_pos h]
  exact List.length_take_le _ _

theorem compressRound_length (st : List Nat) (k : Nat) :
    (compressRound st k).length = st.length := by
  unfold compressRound
  split <;> rfl

theorem foldl_compressRound_length (l : List Nat) (st : List Nat) :
    (l.foldl compressRound st).length = st.length := by
  induction l generalizing st with
  | nil => rfl
  | cons k rest ih =>
    rw [List.foldl_cons, ih, compressRound_length]

theorem compressBlock_length (H block : List Nat) :
    (compressBlock H block).length = H.length := by
  unfold compressBlock
  simp [foldl_compressRound_length]

theorem foldl_compressBlock_length (bs : List (List Nat)) (H : List Nat) :
    (bs.foldl compressBlock H).length = H.length := by
  induction bs generalizing H with
  | nil => rfl
  | cons b rest ih =>
    rw [List.foldl_cons, ih, compressBlock_length]

theorem wordHex_length (w : Nat) : (wordHex w).length = 8 := by
  simp [wordHex]

theorem flatten_wordHex_length (H : List Nat) :
    ((H.map wordHex).flatten).length = 8 * H.length := by
  induction H with
  | nil => rfl
  | cons w rest ih =>
    simp only [List.map_cons, List.flatten_cons, List.length_append, ih,
      wordHex_length, List.length_cons]
    ring

theorem sha256hex_length (s : String) : (sha256hex s).length = 64 := by
  show ((((chunks64 (padMessage (strBytes s))).foldl compressBlock shaH0).map
    wordHex).flatten).length = 64
  rw [flatten_wordHex_length, foldl_compressBlock_length]
  rfl

theorem get_entry_id_ne_empty (e : Entry) : get_entry_id e ≠ "" := by
  intro h
  have hl := sha256hex_length (rawCandidate e)
  rw [show sha256hex (rawCandidate e) = get_entry_id e from rfl, h] at hl
  simp at hl

theorem mem_insertId_self (x : String) (l : List String) : x ∈ insertId x l := by
  unfold insertId
  split
  · assumption
  · simp

theorem mem_insertId_of_mem (x y : String) (l : List String) (h : x ∈ l) :
    x ∈ insertId y l := by
  unfold insertId
  split
  · exact h
  · simp [h]

theorem runEntries_append (st : FeedState) (l1 l2 : List (Entry × EntryOutcome)) :
    runEntries st (l1 ++ l2) = runEntries (runEntries st l1) l2 := by
  induction l1 generalizing st with
  | nil => rfl
  | cons p rest ih =>
    obtain ⟨e, o⟩ := p
    rw [List.cons_append]
    show runEntries (processEntry st e o) (rest ++ l2) = _
    rw [ih]
    rfl

theorem processEntry_publishes (st : FeedState) (e : Entry) (o : EntryOutcome)
    (h : publishes st e o) :
    processEntry st e o =
      { posted_ids := insertId (get_entry_id e) st.posted_ids,
        id_store := some (insertId (get_entry_id e) st.posted_ids),
        attempts := st.attempts ++ [get_entry_id e] } := by
  unfold processEntry
  rw [if_neg h.1, if_neg (by simp [h.2.1]), if_pos h.2.2]

theorem processEntry_posted_mono (st : FeedState) (e : Entry) (o : EntryOutcome)
    (x : String) (h : x ∈ st.posted_ids) :
    x ∈ (processEntry st e o).posted_ids := by
  unfold processEntry
  split
  · exact h
  · split
    · exact h
    · split
      · exact mem_insertId_of_mem _ _ _ h
      · exact h

theorem processEntry_inv (st : FeedState) (e : Entry) (o : EntryOutcome)
    (h : StoreInv st) : StoreInv (processEntry st e o) := by
  unfold processEntry
  split
  · exact h
  · split
    · exact h
    · split
      · intro x hx
        simpa using hx
      · exact h

theorem processEntry_store_mono (st : FeedState) (e : Entry) (o : EntryOutcome)
    (x : String) (hinv : StoreInv st) (hx : x ∈ st.id_store.getD []) :
    x ∈ (processEntry st e o).id_store.getD [] := by
  unfold processEntry
  split
  · exact hx
  · split
    · exact hx
    · split
      · simpa using mem_insertId_of_mem _ _ _ (hinv x hx)
      · exact hx

theorem runEntries_inv (l : List (Entry × EntryOutcome)) (st : FeedState)
    (h : StoreInv st) : StoreInv (runEntries st l) := by
  induction l generalizing st with
  | nil => exact h
  | cons p rest ih =>
    obtain ⟨e, o⟩ := p
    exact ih _ (processEntry_inv st e o h)

theorem runEntries_store_mono (l : List (Entry × EntryOutcome)) (st : FeedState)
    (x : String) (hinv : StoreInv st) (hx : x ∈ st.id_store.getD []) :
    x ∈ (runEntries st l).id_store.getD [] := by
  induction l generalizing st with
  | nil => exact hx
  | cons p rest ih =>
    obtain ⟨e, o⟩ := p
    exact ih _ (processEntry_inv st e o hinv) (processEntry_store_mono st e o x hinv hx)

theorem loadState_inv (store : Option (List String)) : StoreInv (loadState store) := by
  intro x hx
  exact hx

theorem processEntry_attempts_fresh (st : FeedState) (e : Entry) (o : EntryOutcome)
    (x : String) (h1 : x ∈ st.posted_ids) (h2 : x ∉ st.attempts) :
    x ∉ (processEntry st e o).attempts := by
  unfold processEntry
  split
  · exact h2
  · rename_i hskip
    split
    · exact h2
    · have hne : get_entry_id e ≠ x := fun hx => hskip (Or.inr (hx ▸ h1))
      split
      · intro hmem
        rcases List.mem_append.mp hmem with hm | hm
        · exact h2 hm
        · exact hne (List.mem_singleton.mp hm).symm
      · intro hmem
        rcases List.mem_append.mp hmem with hm | hm
        · exact h2 hm
        · exact hne (List.mem_singleton.mp hm).symm

theorem runEntries_attempts_fresh (l : List (Entry × EntryOutcome)) (st : FeedState)
    (x : String) (h1 : x ∈ st.posted_ids) (h2 : x ∉ st.attempts) :
    x ∉ (runEntries st l).attempts := by
  induction l generalizing st with
  | nil => exact h2
  | cons p rest ih =>
    obtain ⟨e, o⟩ := p
    exact ih _ (processEntry_posted_mono st e o x h1)
      (processEntry_attempts_fresh st e o x h1 h2)

theorem processEntry_skip (st : FeedState) (e : Entry) (o : EntryOutcome)
    (h : get_entry_id e ∈ st.posted_ids) : processEntry st e o = st := by
  unfold processEntry
  rw [if_pos (Or.inr h)]

theorem processEntry_rateBlocked (st : FeedState) (e : Entry) (o : EntryOutcome)
    (h : rateBlocked o = true) : processEntry st e o = st := by
  unfold processEntry
  simp [h]

theorem publishes_nil (st : FeedState) (e : Entry) (o : EntryOutcome)
    (h1 : st.posted_ids = []) (h2 : rateBlocked o = false) (h3 : o.publishOk = true) :
    publishes st e o :=
  ⟨fun hor => hor.elim (get_entry_id_ne_empty e)
      (fun hm => List.not_mem_nil _ (h1 ▸ hm)), h2, h3⟩

theorem firstNonEmpty_cons (a : Option String) (rest : List (Option String)) (d : String) :
    firstNonEmpty (a :: rest) d = pyOr a (firstNonEmpty rest d) := by
  cases a <;> rfl

theorem pyOr_of_empty (a : Option String) (b : String)
    (h : (a.getD "").isEmpty = true) : pyOr a b = b := by
  cases a with
  | none => rfl
  | some s =>
    simp only [Option.getD_some] at h
    simp [pyOr, h]

theorem self_mem_inPlaceWriteStates (c : List Char) : c ∈ inPlaceWriteStates c := by
  unfold inPlaceWriteStates
  exact List.mem_map.mpr ⟨c.length, by simp, List.take_length _⟩

theorem nil_mem_inPlaceWriteStates (c : List Char) : [] ∈ inPlaceWriteStates c := by
  unfold inPlaceWriteStates
  exact List.mem_map.mpr ⟨0, by simp, rfl⟩

theorem runEntries_nil (st : FeedState) : runEntries st [] = st := rfl

theorem runEntries_cons (st : FeedState) (e : Entry) (o : EntryOutcome)
    (rest : List (Entry × EntryOutcome)) :
    runEntries st ((e, o) :: rest) = runEntries (processEntry st e o) rest := rfl

theorem runFeed_eq (store : Option (List String)) (entries : List Entry)
    (outs : List EntryOutcome) :
    runFeed store entries outs
      = runEntries (loadState store) ((candidates store entries).zip outs) := rfl

theorem insertId_nil (x : String) : insertId x [] = [x] := by
  unfold insertId
  rw [if_neg (List.not_mem_nil x), List.nil_append]

/-! ## Concrete inputs used by claim-level theorems -/

/-- A successful-publish oracle with an unknown rate-limit signal. -/
def okOut : EntryOutcome := ⟨none, true⟩

/-- An entry whose every identifying candidate is empty. -/
def entryAllEmpty : Entry := ⟨some "", none, some "", "", none, none⟩

/-- A second all-empty-candidates entry (witness input). -/
def entryAllEmptyW : Entry := ⟨none, none, none, "", none, none⟩

/-! ## Claims -/

/-- C10: the identifier derivation is deterministic — it is a pure function,
so two calls on identical input give the identical digest — the hashed value
is the first non-empty/non-null candidate among `entry.id`, `entry.guid`,
`entry.link`, and `title + link`, in that left-to-right priority order
(`rawCandidate` agrees with the spec-side `firstNonEmpty` selection), and the
digest is a 64-character hex string. -/
theorem get_entry_id_deterministic_priority (e : Entry) :
    get_entry_id e = get_entry_id e
    ∧ get_entry_id e = sha256hex (rawCandidate e)
    ∧ rawCandidate e = firstNonEmpty [e.id, e.guid, e.link] (e.title ++ e.link.getD "")
    ∧ (get_entry_id e).length = 64 := by
  refine ⟨rfl, rfl, ?_, sha256hex_length _⟩
  rw [firstNonEmpty_cons, firstNonEmpty_cons, firstNonEmpty_cons]
  rfl

/-- C3 counterexample: on an entry whose every candidate field is empty the
derivation does NOT fail — it returns the (non-empty) digest of the empty
string — and the entry is NOT skipped: in a fresh state with a successful
oracle, `status_post` is invoked for it. -/
theorem get_entry_id_never_fails_cex :
    allCandidatesEmpty entryAllEmpty = true
    ∧ get_entry_id entryAllEmpty ≠ ""
    ∧ (processEntry ⟨[], some [], []⟩ entryAllEmpty okOut).attempts
        = [get_entry_id entryAllEmpty] := by
  refine ⟨rfl, get_entry_id_ne_empty _, ?_⟩
  rw [processEntry_publishes ⟨[], some [], []⟩ entryAllEmpty okOut
    (publishes_nil ⟨[], some [], []⟩ entryAllEmpty okOut rfl rfl rfl)]
  rfl

/-- C3 amended: the identifier derivation never fails — its result is always
a non-empty 64-character digest, even when every candidate field is empty, in
which case it is the digest of the empty string; consequently the loop's
skip-on-falsy-identifier branch is unreachable and an all-empty entry is
published and recorded like any other. -/
theorem get_entry_id_total (e : Entry) :
    get_entry_id e ≠ "" ∧ (get_entry_id e).length = 64
    ∧ (allCandidatesEmpty e = true → get_entry_id e = sha256hex "") := by
  refine ⟨get_entry_id_ne_empty e, sha256hex_length _, fun h => ?_⟩
  simp only [allCandidatesEmpty, Bool.and_eq_true] at h
  obtain ⟨⟨⟨h1, h2⟩, h3⟩, h4⟩ := h
  unfold get_entry_id
  rw [show rawCandidate e = "" from ?_]
  unfold rawCandidate
  rw [pyOr_of_empty _ _ h1, pyOr_of_empty _ _ h2, pyOr_of_empty _ _ h3]
  exact (String.isEmpty_iff _).mp h4

/-- C3 witness: the amended theorem applied to a concrete all-empty entry. -/
theorem get_entry_id_total_witness :
    allCandidatesEmpty entryAllEmptyW = true
    ∧ get_entry_id entryAllEmptyW = sha256hex "" :=
  ⟨by decide, (get_entry_id_total entryAllEmptyW).2.2 (by decide)⟩

/-- Witness input for C8: a fresh entry whose publish call fails. -/
def entryPubFail : Entry := ⟨some "c8-entry", none, none, "T8", none, none⟩

/-- C8: when the publish call for an entry fails, the entry's digest is
added to neither the in-memory set nor the persisted store (both unchanged),
and the loop continues with the next entry of the same feed. -/
theorem publish_failure_state_unchanged (st : FeedState) (e : Entry) (o : EntryOutcome)
    (rest : List (Entry × EntryOutcome))
    (h1 : ¬(get_entry_id e = "" ∨ get_entry_id e ∈ st.posted_ids))
    (h2 : rateBlocked o = false) (h3 : o.publishOk = false) :
    (processEntry st e o).posted_ids = st.posted_ids
    ∧ (processEntry st e o).id_store = st.id_store
    ∧ runEntries st ((e, o) :: rest) = runEntries (processEntry st e o) rest := by
  have hst : processEntry st e o = { st with attempts := st.attempts ++ [get_entry_id e] } := by
    unfold processEntry
    rw [if_neg h1, if_neg (by simp [h2]), if_neg (by simp [h3])]
  exact ⟨by rw [hst], by rw [hst], rfl⟩

/-- C8 witness: the theorem applied to a concrete fresh state and a failed
publish outcome. -/
theorem publish_failure_state_unchanged_witness :
    (processEntry ⟨[], some [], []⟩ entryPubFail ⟨none, false⟩).posted_ids
        = FeedState.posted_ids ⟨[], some [], []⟩
    ∧ (processEntry ⟨[], some [], []⟩ entryPubFail ⟨none, false⟩).id_store
        = FeedState.id_store ⟨[], some [], []⟩
    ∧ runEntries ⟨[], some [], []⟩ [(entryPubFail, ⟨none, false⟩)]
        = runEntries (processEntry ⟨[], some [], []⟩ entryPubFail ⟨none, false⟩) [] :=
  publish_failure_state_unchanged ⟨[], some [], []⟩ entryPubFail ⟨none, false⟩ []
    (fun hor => hor.elim (get_entry_id_ne_empty _) (List.not_mem_nil _)) rfl rfl

/-- Entries of the two-entry feed used by the C4 counterexample. -/
def entryRateA : Entry := ⟨some "rate-item-a", none, none, "A", none, none⟩

/-- Second entry of the C4 counterexample feed. -/
def entryRateB : Entry := ⟨some "rate-item-b", none, none, "B", none, none⟩

/-- Witness input for C4: a fresh entry seen while the signal reads 2. -/
def entryRateW : Entry := ⟨some "rate-item-w", none, none, "W", none, none⟩

/-- C4 counterexample: the rate-limit skip is per entry, not per feed.  In a
single run, entry 1 is checked while the remaining signal reads 3 (below the
threshold 5) and is skipped, yet the subsequent entry 2 — checked while the
signal reads 10 — IS posted and its digest recorded, contradicting "that
entry and all subsequent entries of that feed in that run are not posted". -/
theorem rate_limit_skip_not_sticky_cex :
    rateBlocked ⟨some 3, true⟩ = true
    ∧ (runFeed (some []) [entryRateA, entryRateB]
        [⟨some 3, true⟩, ⟨some 10, true⟩]).attempts = [get_entry_id entryRateB]
    ∧ get_entry_id entryRateB
        ∈ (runFeed (some []) [entryRateA, entryRateB]
            [⟨some 3, true⟩, ⟨some 10, true⟩]).posted_ids := by
  have hrun : runFeed (some []) [entryRateA, entryRateB]
      [⟨some 3, true⟩, ⟨some 10, true⟩]
      = { posted_ids := [get_entry_id entryRateB],
          id_store := some [get_entry_id entryRateB],
          attempts := [get_entry_id entryRateB] } := by
    have hzip : (candidates (some []) [entryRateA, entryRateB]).zip
        [(⟨some 3, true⟩ : EntryOutcome), ⟨some 10, true⟩]
        = [(entryRateA, ⟨some 3, true⟩), (entryRateB, ⟨some 10, true⟩)] := rfl
    rw [runFeed_eq, hzip, runEntries_cons,
        processEntry_rateBlocked (loadState (some [])) entryRateA ⟨some 3, true⟩ (by decide),
        runEntries_cons,
        processEntry_publishes (loadState (some [])) entryRateB ⟨some 10, true⟩
          (publishes_nil (loadState (some [])) entryRateB ⟨some 10, true⟩ rfl rfl rfl),
        runEntries_nil]
    simp [loadState, insertId_nil]
  exact ⟨by decide, by rw [hrun], by rw [hrun]; exact List.mem_singleton.mpr rfl⟩

/-- C4 amended: an entry before which the queried remaining-rate-limit
signal is below the threshold 5 is itself skipped — not posted, not
recorded, the whole feed state unchanged — and the loop then continues with
the next entry, which is re-checked against its own freshly queried signal
rather than being unconditionally skipped. -/
theorem rate_limited_entry_skipped (st : FeedState) (e : Entry) (o : EntryOutcome)
    (rest : List (Entry × EntryOutcome)) (r : Int)
    (hr : o.rateRemaining = some r) (hlt : r < 5) :
    processEntry st e o = st
    ∧ runEntries st ((e, o) :: rest) = runEntries st rest := by
  have hb : rateBlocked o = true := by
    unfold rateBlocked
    rw [hr]
    simpa using hlt
  have hp : processEntry st e o = st := processEntry_rateBlocked st e o hb
  refine ⟨hp, ?_⟩
  show runEntries (processEntry st e o) rest = _
  rw [hp]

/-- C4 witness: the amended theorem applied to a concrete state with the
signal reading 2. -/
theorem rate_limited_entry_skipped_witness :
    processEntry (loadState (some [])) entryRateW ⟨some 2, true⟩ = loadState (some [])
    ∧ runEntries (loadState (some [])) [(entryRateW, ⟨some 2, true⟩)]
        = runEntries (loadState (some [])) [] :=
  rate_limited_entry_skipped (loadState (some [])) entryRateW ⟨some 2, true⟩ [] 2
    rfl (by decide)

/-- Witness input for C2: a fresh entry that publishes successfully. -/
def entryRec : Entry := ⟨some "c2-entry", none, none, "T2", none, none⟩

/-- C2: when an entry's publish call succeeds, its digest is immediately
added to the in-memory set, the persisted store is rewritten with the full
updated set before the next entry is processed, and the digest is still in
the persisted store at every later point of the run (so it survives a
process termination right after the post). -/
theorem publish_success_recorded (store : Option (List String))
    (pre post : List (Entry × EntryOutcome)) (e : Entry) (o : EntryOutcome)
    (h : publishes (runEntries (loadState store) pre) e o) :
    get_entry_id e ∈ (processEntry (runEntries (loadState store) pre) e o).posted_ids
    ∧ (processEntry (runEntries (loadState store) pre) e o).id_store
        = some ((processEntry (runEntries (loadState store) pre) e o).posted_ids)
    ∧ get_entry_id e
        ∈ (runEntries (loadState store) (pre ++ (e, o) :: post)).id_store.getD [] := by
  have hrec := processEntry_publishes (runEntries (loadState store) pre) e o h
  have hinv1 : StoreInv (runEntries (loadState store) pre) :=
    runEntries_inv _ _ (loadState_inv store)
  have hmem : get_entry_id e
      ∈ (processEntry (runEntries (loadState store) pre) e o).id_store.getD [] := by
    rw [hrec]
    simpa using mem_insertId_self (get_entry_id e) _
  refine ⟨?_, ?_, ?_⟩
  · rw [hrec]
    exact mem_insertId_self _ _
  · rw [hrec]
  · rw [runEntries_append]
    show get_entry_id e
      ∈ (runEntries (processEntry (runEntries (loadState store) pre) e o) post).id_store.getD []
    exact runEntries_store_mono post _ _ (processEntry_inv _ e o hinv1) hmem

/-- C2 witness: the theorem applied to a run with an empty store, no earlier
entries and no later entries. -/
theorem publish_success_recorded_witness :
    get_entry_id entryRec
      ∈ (processEntry (runEntries (loadState (some [])) []) entryRec okOut).posted_ids
    ∧ (processEntry (runEntries (loadState (some [])) []) entryRec okOut).id_store
        = some ((processEntry (runEntries (loadState (some [])) []) entryRec okOut).posted_ids)
    ∧ get_entry_id entryRec
        ∈ (runEntries (loadState (some [])) ([] ++ (entryRec, okOut) :: [])).id_store.getD [] :=
  publish_success_recorded (some []) [] [] entryRec okOut
    (publishes_nil (loadState (some [])) entryRec okOut rfl rfl rfl)

/-- First entry of the two-entry feed used by the C7 counterexample. -/
def entryFeedA : Entry := ⟨some "feed-item-a", none, none, "A", none, none⟩

/-- Second entry of the two-entry feed used by the C7 counterexample. -/
def entryFeedB : Entry := ⟨some "feed-item-b", none, none, "B", none, none⟩

/-- Witness input for C7: a single-entry feed. -/
def entryFeedW : Entry := ⟨some "feed-item-w", none, none, "W", none, none⟩

/-- The two counterexample entries have distinct digests (computed). -/
theorem entryFeed_digests_ne : get_entry_id entryFeedB ≠ get_entry_id entryFeedA := by
  decide

/-- C7 amended: on a first run (absent store) with a non-empty fetched entry
list, exactly one entry — the first in feed-native order — is considered,
and when its publish succeeds the run ends with exactly its digest posted,
attempted and persisted.  A subsequent run over the same feed content never
posts the first entry again (it is deduplicated), and when the feed has
exactly one entry the subsequent run makes no posting call at all; entries
beyond the first are NOT covered by the store and may be posted then. -/
theorem first_run_single_entry (e0 : Entry) (tl : List Entry) (o1 : EntryOutcome)
    (rest1 : List EntryOutcome) (outs2 : List EntryOutcome)
    (hrate : rateBlocked o1 = false) (hpub : o1.publishOk = true) :
    candidates none (e0 :: tl) = [e0]
    ∧ (candidates none (e0 :: tl)).length = 1
    ∧ runFeed none (e0 :: tl) (o1 :: rest1)
        = { posted_ids := [get_entry_id e0],
            id_store := some [get_entry_id e0],
            attempts := [get_entry_id e0] }
    ∧ get_entry_id e0 ∉ (runFeed (some [get_entry_id e0]) (e0 :: tl) outs2).attempts
    ∧ (tl = [] → (runFeed (some [get_entry_id e0]) (e0 :: tl) outs2).attempts = []) := by
  have hcand : candidates none (e0 :: tl) = [e0] := by
    unfold candidates
    rfl
  refine ⟨hcand, by rw [hcand]; rfl, ?_, ?_, ?_⟩
  · rw [runFeed_eq, hcand]
    have hzip : ([e0].zip (o1 :: rest1)) = [(e0, o1)] := rfl
    rw [hzip, runEntries_cons,
        processEntry_publishes (loadState none) e0 o1
          (publishes_nil (loadState none) e0 o1 rfl hrate hpub),
        runEntries_nil]
    simp [loadState, insertId_nil]
  · rw [runFeed_eq]
    exact runEntries_attempts_fresh _ _ _ (by simp [loadState]) (by simp [loadState])
  · intro htl
    subst htl
    rw [runFeed_eq]
    have hcand2 : candidates (some [get_entry_id e0]) [e0] = [e0] := rfl
    rw [hcand2]
    cases outs2 with
    | nil => rfl
    | cons o2 rest2 =>
      have hzip : ([e0].zip (o2 :: rest2)) = [(e0, o2)] := rfl
      rw [hzip, runEntries_cons,
          processEntry_skip _ _ _ (by simp [loadState]),
          runEntries_nil]
      rfl

/-- C7 witness: the amended theorem applied to a concrete one-entry feed
with a successful first-run outcome and a second run over the same
content. -/
theorem first_run_single_entry_witness :
    candidates none [entryFeedW] = [entryFeedW]
    ∧ (candidates none [entryFeedW]).length = 1
    ∧ runFeed none [entryFeedW] [okOut]
        = { posted_ids := [get_entry_id entryFeedW],
            id_store := some [get_entry_id entryFeedW],
            attempts := [get_entry_id entryFeedW] }
    ∧ get_entry_id entryFeedW
        ∉ (runFeed (some [get_entry_id entryFeedW]) [entryFeedW] [okOut]).attempts
    ∧ ([] = ([] : List Entry) →
        (runFeed (some [get_entry_id entryFeedW]) [entryFeedW] [okOut]).attempts = []) :=
  first_run_single_entry entryFeedW [] okOut [] [okOut] rfl rfl

/-- C7 counterexample: with a two-entry feed, the first run considers and
posts only the first entry, but the subsequent run over the same feed
content posts the second (historical) entry — 1 new post, not 0. -/
theorem first_run_second_run_posts_cex :
    (runFeed none [entryFeedA, entryFeedB] [okOut]).id_store
        = some [get_entry_id entryFeedA]
    ∧ (runFeed none [entryFeedA, entryFeedB] [okOut]).attempts
        = [get_entry_id entryFeedA]
    ∧ (runFeed (some [get_entry_id entryFeedA]) [entryFeedA, entryFeedB]
        [okOut, okOut]).attempts = [get_entry_id entryFeedB] := by
  have hrun1 : runFeed none [entryFeedA, entryFeedB] [okOut]
      = { posted_ids := [get_entry_id entryFeedA],
          id_store := some [get_entry_id entryFeedA],
          attempts := [get_entry_id entryFeedA] } := by
    rw [runFeed_eq]
    have hzip : (candidates none [entryFeedA, entryFeedB]).zip [okOut]
        = [(entryFeedA, okOut)] := rfl
    rw [hzip, runEntries_cons,
        processEntry_publishes (loadState none) entryFeedA okOut
          (publishes_nil (loadState none) entryFeedA okOut rfl rfl rfl),
        runEntries_nil]
    simp [loadState, insertId_nil]
  have hrun2 : runFeed (some [get_entry_id entryFeedA]) [entryFeedA, entryFeedB]
      [okOut, okOut]
      = { posted_ids := [get_entry_id entryFeedA, get_entry_id entryFeedB],
          id_store := some [get_entry_id entryFeedA, get_entry_id entryFeedB],
          attempts := [get_entry_id entryFeedB] } := by
    rw [runFeed_eq]
    have hzip : (candidates (some [get_entry_id entryFeedA])
        [entryFeedA, entryFeedB]).zip [okOut, okOut]
        = [(entryFeedA, okOut), (entryFeedB, okOut)] := rfl
    rw [hzip, runEntries_cons,
        processEntry_skip _ _ _ (by simp [loadState]),
        runEntries_cons]
    have hpub2 : publishes (loadState (some [get_entry_id entryFeedA])) entryFeedB okOut := by
      refine ⟨fun hor => ?_, rfl, rfl⟩
      rcases hor with h | h
      · exact get_entry_id_ne_empty _ h
      · simp only [loadState, Option.getD_some] at h
        exact entryFeed_digests_ne (List.mem_singleton.mp h)
    rw [processEntry_publishes _ _ _ hpub2, runEntries_nil]
    have hins : insertId (get_entry_id entryFeedB) [get_entry_id entryFeedA]
        = [get_entry_id entryFeedA, get_entry_id entryFeedB] := by
      unfold insertId
      rw [if_neg (fun hm => entryFeed_digests_ne (List.mem_singleton.mp hm))]
      rfl
    simp [loadState, hins]
  exact ⟨by rw [hrun1], by rw [hrun1], by rw [hrun2]⟩

/-- C1 counterexample entry: a 450-character title, a one-character link and
a 47-character space-free summary.  `available_chars` is 46 (nonnegative),
the truncation window contains no space, so the whole window plus the
ellipsis is kept and the formatted text has 501 characters. -/
def entryOver : Entry :=
  ⟨none, none, some "L", String.mk (List.replicate 450 'T'),
   some (String.mk (List.replicate 47 'a')), none⟩

/-- Witness input for C1: a short title and a short summary that fits. -/
def entryFmtW : Entry := ⟨none, none, some "L", "T", some "hello world", none⟩

set_option maxRecDepth 100000 in
/-- C1 counterexample: the formatted text of `entryOver` has exactly 501
characters, exceeding the 500-character budget — the claimed invariant
`length ≤ 500` fails (even with a nonnegative `available_chars`; with a long
enough title the excess is unbounded). -/
theorem format_length_cex :
    0 ≤ available_chars entryOver
    ∧ (formatStatus entryOver).length = 501
    ∧ ¬((formatStatus entryOver).length ≤ 500) := by decide

/-- C1 amended: whenever `available_chars` is nonnegative, the formatted
text has length at most `MAX_CHARS + 1 = 501`: the ellipsis appended after a
space-free truncation window can overshoot the budget by exactly one
character, and a negative `available_chars` (overlong title) voids the bound
entirely. -/
theorem format_length_le (e : Entry) (h : 0 ≤ available_chars e) :
    (formatStatus e).length ≤ 501 := by
  have ha : available_chars e
      = (500 : Int) - (static_part e).length - (link_part e).length := by
    unfold available_chars MAX_CHARS
    norm_num
  have hT : (static_part e).length = (entryTitle e).length + 2 := by
    unfold static_part
    simp
  unfold formatStatus
  refine le_trans (pyStrip_length_le _) ?_
  by_cases hs : entrySummary e ≠ []
  · rw [if_pos hs]
    unfold truncatedSummary
    by_cases hlong : ((entrySummary e).length : Int) > available_chars e
    · rw [if_pos hlong]
      have h1 : (rsplitLast (pySlice (entrySummary e) (available_chars e))).length
          ≤ (available_chars e).toNat :=
        le_trans (rsplitLast_length_le _) (pySlice_length_le _ _ h)
      simp only [List.length_append, List.length_cons, List.length_nil]
      omega
    · rw [if_neg hlong]
      push_neg at hlong
      simp only [List.length_append]
      omega
  · rw [if_neg hs]
    simp only [List.length_append]
    omega

/-- C1 witness: the amended bound applied to a concrete entry with
nonnegative `available_chars`. -/
theorem format_length_le_witness :
    0 ≤ available_chars entryFmtW ∧ (formatStatus entryFmtW).length ≤ 501 :=
  ⟨by decide, format_length_le entryFmtW (by decide)⟩

/-- C5 counterexample entry: 450-character title (window of 46), summary of
47 letters with no space anywhere. -/
def entryNoSpace : Entry :=
  ⟨none, none, some "L", String.mk (List.replicate 450 'T'),
   some (String.mk (List.replicate 47 'a')), none⟩

/-- Witness input for C5: a summary whose truncation window contains
spaces. -/
def entryTruncW : Entry :=
  ⟨none, none, some "L", String.mk (List.replicate 450 'T'),
   some "alpha beta gamma delta epsilon zeta eta theta iota kappa", none⟩

set_option maxRecDepth 100000 in
/-- C5 counterexample: when the truncation window contains no space,
`rsplit` keeps the whole window, so the truncation splits a word: the
character immediately before the appended ellipsis is the letter `a` (not a
whitespace boundary), and the character that followed the cut in the
original summary is also `a`. -/
theorem truncation_splits_word_cex :
    ((entrySummary entryNoSpace).length : Int) > available_chars entryNoSpace
    ∧ truncatedSummary entryNoSpace = List.replicate 46 'a' ++ ['…']
    ∧ (List.replicate 46 'a' ++ ['…']).getD 45 ' ' = 'a'
    ∧ pyIsSpace 'a' = false
    ∧ (entrySummary entryNoSpace).getD 46 ' ' = 'a' := by decide

/-- C5 amended: a summary that fits is used unmodified; a summary longer
than the budget is cut to the window `summary[:available_chars]`, and IF
that window contains a space, the kept prefix is everything before the
window's last space (the trailing partial word and the space are dropped)
with a single ellipsis appended — when the window has no space the whole
window is kept and a word may be split. -/
theorem truncation_at_space (e : Entry) :
    (¬((entrySummary e).length : Int) > available_chars e →
      truncatedSummary e = entrySummary e)
    ∧ (((entrySummary e).length : Int) > available_chars e →
        ' ' ∈ pySlice (entrySummary e) (available_chars e) →
        ∃ pre suf, pySlice (entrySummary e) (available_chars e) = pre ++ ' ' :: suf
          ∧ ' ' ∉ suf ∧ truncatedSummary e = pre ++ ['…']) := by
  constructor
  · intro h
    unfold truncatedSummary
    rw [if_neg h]
  · intro h hsp
    obtain ⟨suf, hs, hn⟩ := rsplitLast_boundary _ hsp
    refine ⟨rsplitLast (pySlice (entrySummary e) (available_chars e)), suf, hs, hn, ?_⟩
    unfold truncatedSummary
    rw [if_pos h]

set_option maxRecDepth 100000 in
/-- C5 witness: the amended theorem applied to a concrete entry whose
truncation window contains spaces. -/
theorem truncation_at_space_witness :
    ∃ pre suf,
      pySlice (entrySummary entryTruncW) (available_chars entryTruncW) = pre ++ ' ' :: suf
      ∧ ' ' ∉ suf
      ∧ truncatedSummary entryTruncW = pre ++ ['…'] :=
  (truncation_at_space entryTruncW).2 (by decide) (by decide)

/-- C6 counterexample entry: a 510-character title makes
`available_chars = -14`; the 21-character summary is longer than the
deficit, so its first 7 characters survive into the formatted text. -/
def entryLongTitle : Entry :=
  ⟨none, none, some "L", String.mk (List.replicate 510 'T'),
   some "abcdefghij klmnopqrst", none⟩

/-- Witness input for C6: a 510-character title and a summary not longer
than the 14-character deficit. -/
def entryLongTitleW : Entry :=
  ⟨none, none, some "L", String.mk (List.replicate 510 'T'), some "abc", none⟩

set_option maxRecDepth 100000 in
/-- C6 counterexample: with negative `available_chars` the code does not
crash, but the summary is NOT omitted: Python's negative-bound slice keeps
all but the last 14 summary characters, so `"abcdefg…"` is interpolated and
the formatted text differs from the summary-free rendering. -/
theorem negative_available_not_omitted_cex :
    available_chars entryLongTitle < 0
    ∧ truncatedSummary entryLongTitle = ['a', 'b', 'c', 'd', 'e', 'f', 'g', '…']
    ∧ formatStatus entryLongTitle
        ≠ pyStrip (entryTitle entryLongTitle ++ link_part entryLongTitle) := by decide

/-- C6 amended: the truncation logic is total (no crash) for nonpositive
`available_chars`; the summary degenerates to a single ellipsis — its
content omitted, though the ellipsis and the title's two trailing newlines
remain — exactly when the summary is no longer than the deficit
`-available_chars`; a longer summary keeps its leading characters. -/
theorem nonpositive_available_small_summary (e : Entry)
    (h1 : entrySummary e ≠ []) (h2 : available_chars e ≤ 0)
    (h3 : ((entrySummary e).length : Int) ≤ -available_chars e) :
    truncatedSummary e = ['…']
    ∧ formatStatus e = pyStrip (static_part e ++ '…' :: link_part e) := by
  have hpos : 0 < (entrySummary e).length := List.length_pos.mpr h1
  have hlong : ((entrySummary e).length : Int) > available_chars e := by omega
  have hslice : pySlice (entrySummary e) (available_chars e) = [] := by
    unfold pySlice
    by_cases hz : 0 ≤ available_chars e
    · have h0 : available_chars e = 0 := le_antisymm h2 hz
      rw [if_pos hz, h0]
      rfl
    · rw [if_neg hz]
      have hlen0 : (entrySummary e).length - (-available_chars e).toNat = 0 := by omega
      rw [hlen0, List.take_zero]
  have htr : truncatedSummary e = ['…'] := by
    unfold truncatedSummary
    rw [if_pos hlong, hslice]
    rfl
  refine ⟨htr, ?_⟩
  unfold formatStatus
  rw [if_pos h1, htr]
  simp [List.append_assoc]

set_option maxRecDepth 100000 in
/-- C6 witness: the amended theorem applied to a concrete overlong-title
entry whose summary fits inside the deficit. -/
theorem nonpositive_available_small_summary_witness :
    truncatedSummary entryLongTitleW = ['…']
    ∧ formatStatus entryLongTitleW
        = pyStrip (static_part entryLongTitleW ++ '…' :: link_part entryLongTitleW) :=
  nonpositive_available_small_summary entryLongTitleW (by decide) (by decide) (by decide)

/-- Witness input for C9: a fresh entry that publishes successfully. -/
def entryRecW : Entry := ⟨some "c9-entry", none, none, "T9", none, none⟩

/-- C9 counterexample: the in-place rewrite is not atomic.  Writing the
serialized two-element set, the crash-observable state `"["` is reachable
yet equals neither the old serialized one-element set nor the new complete
contents — a partially-written file. -/
theorem record_not_atomic_cex :
    ['['] ∈ recordCrashStates ["aa", "bb"]
    ∧ ['['] ≠ jsonDumpList ["aa"]
    ∧ ['['] ≠ jsonDumpList ["aa", "bb"] := by decide

/-- C9 amended: on a successful publish, `record` does rewrite the store
with the serialized full updated set before the next entry — but the write
is an in-place truncate-then-append, not atomic: every prefix of the new
contents, including the empty truncated file, is a crash-observable state. -/
theorem record_writes_full_set (st : FeedState) (e : Entry) (o : EntryOutcome)
    (h : publishes st e o) :
    (processEntry st e o).id_store = some (insertId (get_entry_id e) st.posted_ids)
    ∧ jsonDumpList (insertId (get_entry_id e) st.posted_ids)
        ∈ recordCrashStates (insertId (get_entry_id e) st.posted_ids)
    ∧ [] ∈ recordCrashStates (insertId (get_entry_id e) st.posted_ids) := by
  refine ⟨?_, self_mem_inPlaceWriteStates _, nil_mem_inPlaceWriteStates _⟩
  rw [processEntry_publishes st e o h]

/-- C9 witness: the amended theorem applied to a concrete successful
publish from a fresh state. -/
theorem record_writes_full_set_witness :
    (processEntry ⟨[], some [], []⟩ entryRecW okOut).id_store
        = some (insertId (get_entry_id entryRecW) [])
    ∧ jsonDumpList (insertId (get_entry_id entryRecW) [])
        ∈ recordCrashStates (insertId (get_entry_id entryRecW) [])
    ∧ [] ∈ recordCrashStates (insertId (get_entry_id entryRecW) []) :=
  record_writes_full_set ⟨[], some [], []⟩ entryRecW okOut
    (publishes_nil ⟨[], some [], []⟩ entryRecW okOut rfl rfl rfl)
